import Mathlib

/-!
Verification of the Adobe Client Data Layer core (`src/scripts/DataLayer.js`)
against its natural-language specification.

The development shallowly embeds the JavaScript source:

* JSON-like values (`JValue`) model the nested data handled by the state store.
* `customMerge` embeds `DataLayer.Manager.prototype._customMerge`, including the
  exact semantics of the lodash 4.x helpers it calls (`mergeWith` with the
  null-marking customizer, `cloneDeepWith` with the omitting customizer, and
  `assign`).
* A `Manager` record with explicit state passing embeds the mutable manager
  object; `processItemIdx`, `push` and `processItemsGo` embed `_processItem`,
  the overridden `_dataLayer.push` and `_processItems`.

The companion modules `DataLayerItem`, `DataLayerListener`,
`DataLayerListenerManagerFactory` and `DataLayerConstants` are required by the
source but are not part of the audited sources; where their behaviour is
needed it is modelled from the specification and marked as such in the
corresponding doc comment.
-/

/-- JSON-like values: the data handled by the data layer state.  JavaScript
`undefined` inside a merge source is treated identically to `null` by the
customizer in `_customMerge` (line 144), so the model uses a single `null`
constructor for both deletion markers. -/
inductive JValue where
  | null
  | bool (b : Bool)
  | num (n : Int)
  | str (s : String)
  | arr (xs : List JValue)
  | obj (fs : List (String × JValue))
deriving Repr

/-- A JavaScript object: an insertion-ordered association list with (in any
value produced by the code) pairwise distinct keys. -/
abbrev Obj := List (String × JValue)

/-- lodash `isNull`. -/
def isNullB : JValue → Bool
  | .null => true
  | _ => false

/-- Property lookup on an object (first occurrence of the key). -/
def lookupKey : Obj → String → Option JValue
  | [], _ => none
  | (k, v) :: rest, key => if k == key then some v else lookupKey rest key

/-- Property assignment on an object: overwrite the existing key in place, or
append a new key at the end (JavaScript object insertion-order semantics). -/
def setKey : Obj → String → JValue → Obj
  | [], key, v => [(key, v)]
  | (k, w) :: rest, key, v =>
    if k == key then (key, v) :: rest else (k, w) :: setKey rest key v

/-!
The recursive merge pass of `_customMerge` is lodash
`mergeWith(object, source, customizer)` (DataLayer.js line 149) where the
customizer (lines 143-147) returns `null` whenever the source value is
`undefined` or `null`, and otherwise returns `undefined` so that the default
lodash deep-merge behaviour applies.  lodash `baseMerge`/`baseMergeDeep`
semantics for the value shapes representable here:

* source value `null`/`undefined`: the customizer fires and the target key is
  assigned `null` (a deletion marker);
* source value array: if the target value is an array the two are merged
  element-wise over the source indices, target elements past the source's
  length being retained; otherwise the source array is merged into a fresh
  empty array;
* source value plain object: if the target value is a plain object the two are
  merged recursively key by key; otherwise the source is merged into a fresh
  empty object (lodash grafts keys onto non-object targets only when the
  target is itself an object, a case outside this value model);
* any other source value overwrites the target value.
-/
mutual

/-- Merged value for one key: `ov` is the existing target value (if any), the
second argument the source value. -/
def mergeKey : Option JValue → JValue → JValue
  | _, .null => .null
  | ov, .arr ys =>
    match ov with
    | some (.arr xs) => .arr (mergeArr xs ys)
    | _ => .arr (mergeArr [] ys)
  | ov, .obj fs =>
    match ov with
    | some (.obj gs) => .obj (mergeObj gs fs)
    | _ => .obj (mergeObj [] fs)
  | _, sv => sv

/-- lodash deep merge of a source object into a target object: iterates the
source keys in order, assigning each merged value into the target. -/
def mergeObj : Obj → Obj → Obj
  | t, [] => t
  | t, (k, sv) :: rest =>
    mergeObj (setKey t k (mergeKey (lookupKey t k) sv)) rest

/-- lodash deep merge of a source array into a target array: element-wise over
the source indices; target elements past the source's length are retained. -/
def mergeArr : List JValue → List JValue → List JValue
  | xs, [] => xs
  | [], y :: ys => mergeKey none y :: mergeArr [] ys
  | x :: xs, y :: ys => mergeKey (some x) y :: mergeArr xs ys

end

/-!
`omitDeep(value, isNull)` in `_customMerge` (lines 120-141) is
`cloneDeepWith(value, makeOmittingCloneDeepCustomizer(isNull))`: a deep clone
in which every array drops its `null` elements (`reject(value, predicate)`)
and every object drops its keys whose value is `null`, recursively.
-/
mutual

/-- `omitDeep` on a single value. -/
def omitVal : JValue → JValue
  | .arr xs => .arr (omitList xs)
  | .obj fs => .obj (omitFields fs)
  | v => v

/-- `omitDeep` on the element list of an array: `reject(value, isNull)`
followed by the recursive clone of each kept element. -/
def omitList : List JValue → List JValue
  | [] => []
  | v :: vs => if isNullB v then omitList vs else omitVal v :: omitList vs

/-- `omitDeep` on the field list of an object: keys whose value is `null` are
dropped, the kept values are recursively cloned. -/
def omitFields : List (String × JValue) → List (String × JValue)
  | [] => []
  | (k, v) :: rest =>
    if isNullB v then omitFields rest else (k, omitVal v) :: omitFields rest

end

/-- The effect of the final `assign(object, omitDeep(object, isNull))`
(line 152) on one top-level value: `omitDeep` drops the top-level keys whose
value is `null` from its clone, and `assign` copies only the remaining keys
back, so a top-level `null` value is left in place while every other top-level
value is replaced by its deep-cleaned clone. -/
def cleanTop (v : JValue) : JValue :=
  if isNullB v then v else omitVal v

/-- `DataLayer.Manager.prototype._customMerge(object, source)` (lines
119-153) for a plain-object source: `mergeWith` with the null-marking
customizer, then `assign(object, omitDeep(object, isNull))`. -/
def customMerge (target source : Obj) : Obj :=
  let m := mergeObj target source
  m.map (fun kv => (kv.1, cleanTop kv.2))

/-!  Reachability of `null` inside a value, used to state the merge invariant. -/
mutual

/-- `true` iff no reachable sub-value (including the value itself) is `null`. -/
def nullFree : JValue → Bool
  | .null => false
  | .arr xs => nullFreeList xs
  | .obj fs => nullFreeFields fs
  | _ => true

/-- `nullFree` for every element of an array. -/
def nullFreeList : List JValue → Bool
  | [] => true
  | v :: vs => nullFree v && nullFreeList vs

/-- `nullFree` for every value of an object. -/
def nullFreeFields : List (String × JValue) → Bool
  | [] => true
  | (_, v) :: rest => nullFree v && nullFreeFields rest

end

/-- `true` iff no reachable value of the object (at any depth, including the
top level) is `null`. -/
def objNullFree (o : Obj) : Bool := nullFreeFields o

/-!  ## The dispatcher: items, listeners, manager state  -/

/-- Listener scope.  Modelled from the spec: the scope string constants live in
`DataLayerConstants`, which is not among the audited sources. -/
inductive Scope where
  | past
  | future
  | all
deriving DecidableEq, Repr

/-- A materialized listener.  Modelled from the spec: `DataLayerListener` is
not among the audited sources.  Handlers are opaque callback references,
identified by a numeral. -/
structure Listener where
  eventName : String
  path : Option String
  scope : Scope
  handler : Nat
deriving DecidableEq, Repr

/-- Modelled from the spec: raw pushed values as classified by
`DataLayerItem` (not among the audited sources; spec section 4.1).  Each
constructor is one recognized payload shape; every unrecognized payload is
`invalidP` with its raw serialization. -/
inductive Payload where
  | dataP (d : Obj)
  | eventP (name : String) (d : Option Obj) (info : Option JValue)
  | onP (name : String) (handler : Nat) (path : Option String) (scope : Option String)
  | offP (name : String) (handler : Option Nat)
  | fctnP (fid : Nat) (throws : Bool)
  | invalidP (raw : String)

/-- Item types, mirroring `DataLayer.constants.itemType`. -/
inductive ItemType where
  | data
  | event
  | fctn
  | listenerOn
  | listenerOff
  | invalid
deriving DecidableEq, Repr

/-- Modelled from the spec: `DataLayerItem`'s type classification (spec
section 4.1); an item is valid iff its type is recognized. -/
def itemTypeOf : Payload → ItemType
  | .dataP _ => .data
  | .eventP _ _ _ => .event
  | .onP _ _ _ _ => .listenerOn
  | .offP _ _ => .listenerOff
  | .fctnP _ _ => .fctn
  | .invalidP _ => .invalid

/-- `item.valid`: recognized shape. -/
def validItem (p : Payload) : Bool := itemTypeOf p != ItemType.invalid

/-- A visible-queue entry: `none` is a JavaScript `undefined` slot (a hole
left by `delete` and then pushed by `Array.prototype.push.apply`). -/
abbrev Entry := Option Payload

/-- Classifying a queue entry: an `undefined` slot satisfies no recognized
shape, hence classifies as invalid. -/
def classifyEntry : Entry → Payload
  | some p => p
  | none => .invalidP "undefined"

/-- Observable effects of processing, recorded in order of occurrence. -/
inductive Event where
  | invalidDiag (raw : String)
  | fctnCall (fid : Nat) (queue : List Entry)
  | fired (l : Listener) (cause : Payload)
  | handlerError (l : Listener) (cause : Payload)
  | ready

/-- Whether an effect is the readiness notification. -/
def Event.isReady : Event → Bool
  | .ready => true
  | _ => false

/-- The listener (if any) whose handler an effect invokes. -/
def invokedListener : Event → Option Listener
  | .fired l _ => some l
  | .handlerError l _ => some l
  | _ => none

/-- The manager's mutable state (`DataLayer.Manager`): `_state`,
`_previousStateCopy`, the augmented `_dataLayer` array, the listener
registry, and the trace of observable effects. -/
structure Manager where
  state : Obj
  previous : Obj
  queue : List Entry
  registry : List Listener
  log : List Event

/-- Modelled from the spec: the synthetic change event name (a constant in
`DataLayerConstants`, not among the audited sources). -/
def changeEventName : String := "adobeDataLayer:change"

/-- Modelled from the spec: listener identity for de-duplication is the
`(eventName, path, handler)` triple (spec section 3). -/
def sameIdentity (a b : Listener) : Bool :=
  a.eventName == b.eventName && a.path == b.path && a.handler == b.handler

/-- Modelled from the spec: `ListenerManager.register` returns `false` and
leaves the registry unchanged when an identical triple exists, else appends
the listener and returns `true` (spec section 4.3). -/
def registerL (regs : List Listener) (l : Listener) : List Listener × Bool :=
  if regs.any (sameIdentity l) then (regs, false) else (regs ++ [l], true)

/-- Modelled from the spec: `ListenerManager.unregister` removes all listeners
matching the event name and, when a handler is supplied, also the handler
(spec section 4.3). -/
def unregisterL (regs : List Listener) (name : String) (h : Option Nat) : List Listener :=
  regs.filter (fun l =>
    !(l.eventName == name &&
      (match h with
       | some hh => l.handler == hh
       | none => true)))

/-- Modelled from the spec: whether the merged data of a command touches a
path or a descendant/ancestor of it (spec section 4.3).  Structural descent
over the path segments; a non-object value reached before the path is
exhausted is a touched ancestor. -/
def touchesPath : JValue → List String → Bool
  | _, [] => true
  | .obj fs, k :: ks =>
    match lookupKey fs k with
    | some v => touchesPath v ks
    | none => false
  | _, _ :: _ => true

/-- The data payload carried by a command (used for change-event matching). -/
def itemData : Payload → Option Obj
  | .dataP d => some d
  | .eventP _ d _ => d
  | _ => none

/-- Modelled from the spec: `ListenerManager.matching` restricted to one
listener (spec section 4.3): a listener matches a `Data` command through the
synthetic change event, an `Event` command through its event name or (when the
command carries data) the change event; a `path` filter further requires the
command's data to touch the path. -/
def matchesL (l : Listener) (p : Payload) : Bool :=
  let nameMatch :=
    match p with
    | .dataP _ => l.eventName == changeEventName
    | .eventP n d _ => l.eventName == n || (d.isSome && l.eventName == changeEventName)
    | _ => false
  nameMatch &&
    (match l.path, itemData p with
     | some path, some d => touchesPath (.obj d) (path.splitOn ".")
     | some _, none => false
     | none, _ => true)

/-- Modelled from the spec: `ListenerManager.triggerListener` — invoke one
listener's handler on one command when it matches; an exception raised by the
handler is caught at this boundary and logged (spec sections 4.3, 7).  The
argument `H` tells which opaque handlers throw. -/
def triggerOneEvents (H : Nat → Bool) (l : Listener) (p : Payload) : List Event :=
  if matchesL l p then
    (if H l.handler then [.handlerError l p] else [.fired l p])
  else []

/-- Modelled from the spec: `ListenerManager.triggerListeners` — matching and
triggering every registered listener, in registration order; a throwing
handler does not abort the remaining listeners. -/
def triggerListeners (H : Nat → Bool) (regs : List Listener) (p : Payload) : List Event :=
  (regs.map (fun l => triggerOneEvents H l p)).flatten

/-- Modelled from the spec: scope-string parsing with default `all` for an
absent or unrecognized value (spec section 4.1). -/
def parseScope : Option String → Scope
  | some "past" => .past
  | some "future" => .future
  | _ => .all

/-- The listener constructed from a `ListenerOn` payload. -/
def mkListener (name : String) (h : Nat) (path : Option String) (scope : Option String) :
    Listener :=
  ⟨name, path, parseScope scope, h⟩

/-- `DataLayer.Manager.prototype._updateState` (lines 107-110): deep-snapshot
the state into `_previousStateCopy`, then merge the item's data into the
state in place. -/
def updateState (m : Manager) (d : Obj) : Manager :=
  { m with previous := m.state, state := customMerge m.state d }

/-- `_getBefore` inside `_processItem` (lines 303-308): `slice(0, index)` of
the current visible queue, guarded to return an empty list when the queue is
empty or the index is past its end; an item without an index (`undefined`)
fails the comparison `index > length - 1`, so `slice(0, undefined)` copies
the whole queue. -/
def getBefore (queue : List Entry) : Option Nat → List Entry
  | some i =>
    if queue.length == 0 || i + 1 > queue.length then [] else queue.take i
  | none => if queue.length == 0 then [] else queue

/-- `DataLayer.Manager.prototype._processItem` (lines 285-353) with the
item's queue index (`none` for items constructed without one).  Returns the
updated manager and whether the processing threw (only a `Function` payload
can throw, since `typeProcessors.fctn` invokes it without any guard). -/
def processItemIdx (H : Nat → Bool) (m : Manager) (e : Entry) (idx : Option Nat) :
    Manager × Bool :=
  match classifyEntry e with
  | .invalidP raw => ({ m with log := m.log ++ [.invalidDiag raw] }, false)
  | .dataP d =>
    let m1 := updateState m d
    ({ m1 with log := m1.log ++ triggerListeners H m1.registry (.dataP d) }, false)
  | .eventP n d info =>
    let m1 := match d with
              | some dd => updateState m dd
              | none => m
    ({ m1 with log := m1.log ++ triggerListeners H m1.registry (.eventP n d info) }, false)
  | .fctnP f thr => ({ m with log := m.log ++ [.fctnCall f m.queue] }, thr)
  | .onP n h path scope =>
    let l := mkListener n h path scope
    (match l.scope with
     | .past =>
       ({ m with log := m.log ++
            ((getBefore m.queue idx).map
              (fun q => triggerOneEvents H l (classifyEntry q))).flatten }, false)
     | .future => ({ m with registry := (registerL m.registry l).1 }, false)
     | .all =>
       if (registerL m.registry l).2 then
         ({ m with registry := (registerL m.registry l).1,
                   log := m.log ++
                     ((getBefore m.queue idx).map
                       (fun q => triggerOneEvents H l (classifyEntry q))).flatten }, false)
       else ({ m with registry := (registerL m.registry l).1 }, false))
  | .offP n h => ({ m with registry := unregisterL m.registry n h }, false)

/-- The filtered-arguments slot for one push argument: `push` deletes the
argument from the (single, shared) `arguments` object unless the item is a
valid `Data` or `Event`; a deleted slot is a hole, which
`Array.prototype.push.apply` later reads back as `undefined`. -/
def retainedOpt (p : Payload) : Entry :=
  match itemTypeOf p with
  | .data => some p
  | .event => some p
  | _ => none

/-- The dispatch pass of the overridden `push` (lines 173-196): each argument
is classified in order; `Data`, `Event` and `Function` items are routed to
`_processItem`, listener and invalid items are only deleted.  An exception
from a `Function` payload aborts the remaining iterations and propagates. -/
def pushDispatch (H : Nat → Bool) (m : Manager) : List Payload → Manager × Bool
  | [] => (m, false)
  | a :: rest =>
    match itemTypeOf a with
    | .data =>
      let r := processItemIdx H m (some a) none
      pushDispatch H r.1 rest
    | .event =>
      let r := processItemIdx H m (some a) none
      pushDispatch H r.1 rest
    | .fctn =>
      let r := processItemIdx H m (some a) none
      if r.2 then (r.1, true) else pushDispatch H r.1 rest
    | _ => pushDispatch H m rest

/-- The result of one `push` call: the manager afterwards, the value returned
to the caller (`none` is `undefined`), and whether the call threw. -/
structure PushOut where
  mgr : Manager
  ret : Option Nat
  threw : Bool

/-- The overridden `_dataLayer.push` (lines 169-201): dispatch every argument,
then — only if slot 0 of the filtered arguments is still truthy — append all
remaining slots (holes included, read back as `undefined`) via
`Array.prototype.push.apply` and return the new length; otherwise return
`undefined`. -/
def push (H : Nat → Bool) (m : Manager) (args : List Payload) : PushOut :=
  let r := pushDispatch H m args
  if r.2 then ⟨r.1, none, true⟩
  else
    match args with
    | [] => ⟨r.1, none, false⟩
    | a0 :: _ =>
      if (retainedOpt a0).isSome then
        ⟨{ r.1 with queue := r.1.queue ++ args.map retainedOpt },
          some (r.1.queue.length + args.length), false⟩
      else ⟨r.1, none, false⟩

/-- Whether `_processItems` keeps a queue entry: it splices out listener
items, function items and invalid items (lines 269-275). -/
def retainedEntry (e : Entry) : Bool :=
  match e with
  | some p =>
    match itemTypeOf p with
    | .data => true
    | .event => true
    | _ => false
  | none => false

/-- `DataLayer.Manager.prototype._processItems` (lines 260-277): one scan of
the pre-existing queue in original order; each entry is processed with its
current position as index, then spliced out unless it is a valid `Data` or
`Event` item.  `kept` is the already-scanned retained prefix; the manager's
queue field always holds the current visible array.  An exception (from a
`Function` entry) propagates, leaving the queue as it stood. -/
def processItemsGo (H : Nat → Bool) (m : Manager) (kept : List Entry) :
    List Entry → Manager × Bool
  | [] => ({ m with queue := kept }, false)
  | e :: rest =>
    let mq : Manager := { m with queue := kept ++ e :: rest }
    let r := processItemIdx H mq e (some kept.length)
    if r.2 then (r.1, true)
    else if retainedEntry e then processItemsGo H r.1 (kept ++ [e]) rest
    else processItemsGo H r.1 kept rest

/-- `DataLayer.Manager` construction (`_initialize`, lines 85-99): fresh empty
state, previous snapshot and registry, then `_processItems` over the supplied
queue.  (`_augment` only installs the overridden methods and has no effect on
the modelled state.) -/
def initManager (H : Nat → Bool) (rawQueue : List Entry) : Manager × Bool :=
  processItemsGo H ⟨[], [], rawQueue, [], []⟩ [] rawQueue

/-!  ## Helper lemmas: the merge model  -/

/-- `isNullB` detects exactly `null`. -/
theorem isNullB_eq_true {v : JValue} : isNullB v = true ↔ v = JValue.null := by
  cases v <;> simp [isNullB]

mutual

/-- `omitDeep` of a non-null value contains no reachable `null`. -/
theorem omitVal_nullFree : (v : JValue) → isNullB v = false → nullFree (omitVal v) = true
  | .null, h => by simp [isNullB] at h
  | .bool _, _ => rfl
  | .num _, _ => rfl
  | .str _, _ => rfl
  | .arr xs, _ => omitList_nullFree xs
  | .obj fs, _ => omitFields_nullFree fs

/-- `omitDeep` of an array element list contains no reachable `null`. -/
theorem omitList_nullFree : (xs : List JValue) → nullFreeList (omitList xs) = true
  | [] => rfl
  | v :: vs => by
    cases hv : isNullB v with
    | true => simpa [omitList, hv] using omitList_nullFree vs
    | false =>
      simp [omitList, hv, nullFreeList, omitVal_nullFree v hv, omitList_nullFree vs]

/-- `omitDeep` of an object field list contains no reachable `null`. -/
theorem omitFields_nullFree : (fs : List (String × JValue)) →
    nullFreeFields (omitFields fs) = true
  | [] => rfl
  | (k, v) :: rest => by
    cases hv : isNullB v with
    | true => simpa [omitFields, hv] using omitFields_nullFree rest
    | false =>
      simp [omitFields, hv, nullFreeFields, omitVal_nullFree v hv,
        omitFields_nullFree rest]

end

/-- Looking up the key just set. -/
theorem lookupKey_setKey_self (t : Obj) (k : String) (v : JValue) :
    lookupKey (setKey t k v) k = some v := by
  induction t with
  | nil => simp [setKey, lookupKey]
  | cons kv rest ih =>
    obtain ⟨k', w⟩ := kv
    by_cases h : k' == k
    · simp [setKey, h, lookupKey]
    · simp only [setKey, h, Bool.false_eq_true, if_false, lookupKey]
      simp [h, ih]

/-- Lookup commutes with the per-key cleanup map of `customMerge`. -/
theorem lookupKey_map_cleanTop (l : Obj) (k : String) :
    lookupKey (l.map (fun kv => (kv.1, cleanTop kv.2))) k
      = (lookupKey l k).map cleanTop := by
  induction l with
  | nil => simp [lookupKey]
  | cons kv rest ih =>
    obtain ⟨k', w⟩ := kv
    by_cases h : k' == k <;> simp [lookupKey, h, ih]

/-- A `null` source value is a deletion marker for the merge pass. -/
theorem mergeKey_null (ov : Option JValue) : mergeKey ov JValue.null = JValue.null := by
  cases ov with
  | none => rfl
  | some v => cases v <;> rfl

/-!  ## C1  -/

/-- Processing a sequence of `Data` commands through the dispatcher
(`_processItem` with a `data` item each time). -/
def processDataSeq (H : Nat → Bool) (m : Manager) (ds : List Obj) : Manager :=
  ds.foldl (fun m d => (processItemIdx H m (some (.dataP d)) none).1) m

/-- Processing one `Data` command merges into the state and snapshots the
previous state beforehand. -/
theorem processData_step (H : Nat → Bool) (m : Manager) (d : Obj) :
    (processItemIdx H m (some (.dataP d)) none).1.state = customMerge m.state d ∧
    (processItemIdx H m (some (.dataP d)) none).1.previous = m.state := ⟨rfl, rfl⟩

/-- C1: for every sequence of `Data` commands processed by the dispatcher, the
state afterwards is the left-fold of the delete-aware merge `_customMerge`
over their `data` payloads in order, and after one more `Data` command the
previous-state snapshot equals the state as it stood immediately before that
last merge. -/
theorem dataCommands_fold_previous (H : Nat → Bool) (m : Manager) (ds : List Obj)
    (d : Obj) :
    (processDataSeq H m ds).state = ds.foldl customMerge m.state ∧
    (processDataSeq H m (ds ++ [d])).previous = (processDataSeq H m ds).state := by
  constructor
  · induction ds generalizing m with
    | nil => rfl
    | cons a rest ih =>
      simpa [processDataSeq, List.foldl_cons] using ih ((processItemIdx H m (some (.dataP a)) none).1)
  · simp only [processDataSeq, List.foldl_append, List.foldl_cons, List.foldl_nil]
    exact (processData_step H _ d).2

/-!  ## C2  -/

/-- C2 counterexample: merging the source `{a: null}` into the target `{a: 1}`
leaves the key `a` present with the value `null` — `mergeWith` marks it `null`
and the final `assign(object, omitDeep(object, isNull))` cannot delete a
top-level key — so after the merge a reachable value of the target is `null`
and the key is not absent, refuting the claim at the top level. -/
theorem customMerge_topLevel_null_cex :
    customMerge [("a", JValue.num 1)] [("a", JValue.null)] = [("a", JValue.null)] ∧
    objNullFree (customMerge [("a", JValue.num 1)] [("a", JValue.null)]) = false ∧
    lookupKey (customMerge [("a", JValue.num 1)] [("a", JValue.null)]) "a"
      = some JValue.null := ⟨rfl, rfl, rfl⟩

/-- C2 (amended): after `_customMerge(target, source)` every value strictly
below the top level is non-null — each top-level value of the result is either
itself `null` or contains no reachable `null` — and a `null`/`undefined`
source value deletes its key at nested depth (spec example included), but at a
top-level key it leaves the key present with value `null`. -/
theorem customMerge_null_scrub (t s : Obj) (kv : String × JValue)
    (hkv : kv ∈ customMerge t s) :
    (kv.2 = JValue.null ∨ nullFree kv.2 = true) ∧
    customMerge [("a", JValue.obj [("b", JValue.num 1), ("c", JValue.num 2)])]
        [("a", JValue.obj [("b", JValue.null)])]
      = [("a", JValue.obj [("c", JValue.num 2)])] ∧
    (∀ (u : Obj) (k : String),
      lookupKey (customMerge u [(k, JValue.null)]) k = some JValue.null) := by
  refine ⟨?_, rfl, ?_⟩
  · rcases List.mem_map.mp hkv with ⟨kv', _, rfl⟩
    cases hn : isNullB kv'.2 with
    | true =>
      left
      have hv : kv'.2 = JValue.null := isNullB_eq_true.mp hn
      simp [cleanTop, hv, isNullB]
    | false =>
      right
      simpa [cleanTop, hn] using omitVal_nullFree kv'.2 hn
  · intro u k
    have hm : mergeObj u [(k, JValue.null)] = setKey u k JValue.null := by
      simp [mergeObj, mergeKey_null]
    simp only [customMerge]
    rw [hm, lookupKey_map_cleanTop, lookupKey_setKey_self]
    rfl

/-- Witness for `customMerge_null_scrub` at a concrete nested deletion. -/
theorem customMerge_null_scrub_witness :
    (("a", JValue.obj [("c", JValue.num 2)]) ∈
        customMerge [("a", JValue.obj [("b", JValue.num 1), ("c", JValue.num 2)])]
          [("a", JValue.obj [("b", JValue.null)])]) ∧
    ((JValue.obj [("c", JValue.num 2)] = JValue.null) ∨
        nullFree (JValue.obj [("c", JValue.num 2)]) = true) :=
  ⟨List.mem_singleton.mpr rfl,
    (customMerge_null_scrub
      [("a", JValue.obj [("b", JValue.num 1), ("c", JValue.num 2)])]
      [("a", JValue.obj [("b", JValue.null)])]
      ("a", JValue.obj [("c", JValue.num 2)])
      (List.mem_singleton.mpr rfl)).1⟩

/-!  ## C3  -/

/-- C3 counterexample: with both values arrays at the same key, lodash
`mergeWith` merges element-wise over the source indices, so the source `[9]`
merged into the target `[1, 2, 3]` yields `[9, 2, 3]` — not the wholesale
replacement `[9]` the claim states. -/
theorem customMerge_array_elementwise_cex :
    customMerge [("x", JValue.arr [JValue.num 1, JValue.num 2, JValue.num 3])]
        [("x", JValue.arr [JValue.num 9])]
      = [("x", JValue.arr [JValue.num 9, JValue.num 2, JValue.num 3])] ∧
    customMerge [("x", JValue.arr [JValue.num 1, JValue.num 2, JValue.num 3])]
        [("x", JValue.arr [JValue.num 9])]
      ≠ [("x", JValue.arr [JValue.num 9])] := by
  refine ⟨rfl, fun h => ?_⟩
  have h' : ([("x", JValue.arr [JValue.num 9, JValue.num 2, JValue.num 3])] : Obj)
      = [("x", JValue.arr [JValue.num 9])] := h
  simp at h'

/-- C3 (amended): when the source and target values at a key are both arrays,
lodash merges them element-wise — for each source index the source element
overwrites or recursively merges into the target element, a `null` source
element marks the slot for deletion, and target elements past the source's
length are retained — after which the cleanup pass removes the `null` slots.
Merging the array `[1, null, 2]` at a fresh key yields `[1, 2]`, and merging
`[9, null]` into `[1, 2, 3]` yields `[9, 3]`. -/
theorem customMerge_array_merge (k : String) (xs ys : List JValue) :
    customMerge [(k, JValue.arr xs)] [(k, JValue.arr ys)]
      = [(k, omitVal (JValue.arr (mergeArr xs ys)))] ∧
    mergeArr xs [] = xs ∧
    customMerge [] [(k, JValue.arr [JValue.num 1, JValue.null, JValue.num 2])]
      = [(k, JValue.arr [JValue.num 1, JValue.num 2])] ∧
    customMerge [("x", JValue.arr [JValue.num 1, JValue.num 2, JValue.num 3])]
        [("x", JValue.arr [JValue.num 9, JValue.null])]
      = [("x", JValue.arr [JValue.num 9, JValue.num 3])] := by
  refine ⟨?_, by cases xs <;> rfl, rfl, rfl⟩
  simp [customMerge, mergeObj, setKey, lookupKey, mergeKey, cleanTop, isNullB]

/-!  ## Helper lemmas: the dispatcher  -/

/-- `_processItem` never mutates the visible queue. -/
theorem processItemIdx_queue (H : Nat → Bool) (m : Manager) (e : Entry)
    (idx : Option Nat) : (processItemIdx H m e idx).1.queue = m.queue := by
  rcases e with _ | p
  · rfl
  · cases p <;> simp only [processItemIdx, classifyEntry] <;>
      first
        | rfl
        | (split <;> first | rfl | (split <;> rfl))

/-- The dispatch pass of `push` never mutates the visible queue (the only
queue mutation of `push` is the final `Array.prototype.push.apply`). -/
theorem pushDispatch_queue (H : Nat → Bool) (args : List Payload) (m : Manager) :
    (pushDispatch H m args).1.queue = m.queue := by
  induction args generalizing m with
  | nil => rfl
  | cons a rest ih =>
    cases ht : itemTypeOf a with
    | data =>
      simp only [pushDispatch, ht]
      rw [ih, processItemIdx_queue]
    | event =>
      simp only [pushDispatch, ht]
      rw [ih, processItemIdx_queue]
    | fctn =>
      simp only [pushDispatch, ht]
      cases hthr : (processItemIdx H m (some a) none).2 with
      | true =>
        simp only [hthr, if_true]
        exact processItemIdx_queue H m (some a) none
      | false =>
        simp only [hthr, Bool.false_eq_true, if_false]
        rw [ih, processItemIdx_queue]
    | listenerOn =>
      simp only [pushDispatch, ht]
      exact ih m
    | listenerOff =>
      simp only [pushDispatch, ht]
      exact ih m
    | invalid =>
      simp only [pushDispatch, ht]
      exact ih m

/-- Splitting the dispatch pass of `push` at a point that has not thrown. -/
theorem pushDispatch_append (H : Nat → Bool) (xs ys : List Payload) (m : Manager)
    (hok : (pushDispatch H m xs).2 = false) :
    pushDispatch H m (xs ++ ys) = pushDispatch H (pushDispatch H m xs).1 ys := by
  induction xs generalizing m with
  | nil => rfl
  | cons a rest ih =>
    cases ht : itemTypeOf a with
    | data =>
      simp only [List.cons_append, pushDispatch, ht] at hok ⊢
      exact ih _ hok
    | event =>
      simp only [List.cons_append, pushDispatch, ht] at hok ⊢
      exact ih _ hok
    | fctn =>
      simp only [List.cons_append, pushDispatch, ht] at hok ⊢
      cases hthr : (processItemIdx H m (some a) none).2 with
      | true => simp [hthr] at hok
      | false =>
        simp only [hthr, Bool.false_eq_true, if_false] at hok ⊢
        exact ih _ hok
    | listenerOn =>
      simp only [List.cons_append, pushDispatch, ht] at hok ⊢
      exact ih _ hok
    | listenerOff =>
      simp only [List.cons_append, pushDispatch, ht] at hok ⊢
      exact ih _ hok
    | invalid =>
      simp only [List.cons_append, pushDispatch, ht] at hok ⊢
      exact ih _ hok

/-- Every effect produced by triggering one listener invokes that listener's
handler (and is in particular not a readiness notification). -/
theorem mem_triggerOneEvents (H : Nat → Bool) (l : Listener) (p : Payload)
    (x : Event) (hx : x ∈ triggerOneEvents H l p) :
    invokedListener x = some l ∧ x.isReady = false := by
  unfold triggerOneEvents at hx
  split at hx
  · split at hx <;>
      · rw [List.mem_singleton.mp hx]
        exact ⟨rfl, rfl⟩
  · cases hx

/-- Every effect produced by `triggerListeners` invokes the handler of some
registered listener. -/
theorem mem_triggerListeners (H : Nat → Bool) (regs : List Listener) (p : Payload)
    (x : Event) (hx : x ∈ triggerListeners H regs p) :
    ∃ l ∈ regs, invokedListener x = some l := by
  unfold triggerListeners at hx
  rcases List.mem_flatten.mp hx with ⟨L, hL, hxL⟩
  rcases List.mem_map.mp hL with ⟨l0, hl0, rfl⟩
  exact ⟨l0, hl0, (mem_triggerOneEvents H l0 p x hxL).1⟩

/-- Every effect produced by a replay loop over queue entries invokes the
replayed listener's handler. -/
theorem mem_replayEvents (H : Nat → Bool) (l : Listener) (entries : List Entry)
    (x : Event)
    (hx : x ∈ (entries.map (fun q => triggerOneEvents H l (classifyEntry q))).flatten) :
    invokedListener x = some l ∧ x.isReady = false := by
  rcases List.mem_flatten.mp hx with ⟨L, hL, hxL⟩
  rcases List.mem_map.mp hL with ⟨q, _, rfl⟩
  exact mem_triggerOneEvents H l (classifyEntry q) x hxL

/-- After a completed `_processItems` scan, the visible queue holds exactly
the retained (valid `Data`/`Event`) entries, in order. -/
theorem processItemsGo_queue (H : Nat → Bool) (rest : List Entry) (m : Manager)
    (kept : List Entry) (hok : (processItemsGo H m kept rest).2 = false) :
    (processItemsGo H m kept rest).1.queue = kept ++ rest.filter retainedEntry := by
  induction rest generalizing m kept with
  | nil => simp [processItemsGo]
  | cons e rest ih =>
    simp only [processItemsGo] at hok ⊢
    cases hthr : (processItemIdx H { m with queue := kept ++ e :: rest } e
        (some kept.length)).2 with
    | true => simp [hthr] at hok
    | false =>
      simp only [hthr, Bool.false_eq_true, if_false] at hok ⊢
      cases hre : retainedEntry e with
      | true =>
        simp only [hre, if_true] at hok ⊢
        rw [ih _ _ hok]
        simp [List.filter_cons, hre]
      | false =>
        simp only [hre, Bool.false_eq_true, if_false] at hok ⊢
        rw [ih _ _ hok]
        simp [List.filter_cons, hre]

/-!  ## C4  -/

/-- A handler-behaviour assignment under which no opaque handler throws. -/
def noThrow : Nat → Bool := fun _ => false

/-- A freshly constructed manager over an empty queue. -/
def emptyMgr : Manager := ⟨[], [], [], [], []⟩

/-- C4 counterexample: `push` shares one `arguments` object between
`pushArguments` and `filteredArguments`, so a deleted (non-retained) argument
in a non-first position survives as a hole that `Array.prototype.push.apply`
appends as an `undefined` slot: pushing a valid `Data` item followed by an
invalid payload leaves the queue `[data, undefined]`, not `[data]` — the
visible queue did not gain exactly the retained entries. -/
theorem push_queue_hole_cex :
    (push noThrow emptyMgr [.dataP [("a", JValue.num 1)], .invalidP "bogus"]).mgr.queue
      = [some (.dataP [("a", JValue.num 1)]), none] ∧
    (push noThrow emptyMgr [.dataP [("a", JValue.num 1)], .invalidP "bogus"]).mgr.queue
      ≠ [some (.dataP [("a", JValue.num 1)])] ∧
    (push noThrow emptyMgr [.dataP [("a", JValue.num 1)], .invalidP "bogus"]).ret
      = some 2 := by
  refine ⟨rfl, fun h => ?_, rfl⟩
  have h' : ([some (Payload.dataP [("a", JValue.num 1)]), none] : List Entry)
      = [some (.dataP [("a", JValue.num 1)])] := h
  simp at h'

/-- C4 (amended): every argument of `push` is classified and dispatched before
the call returns (state and log afterwards are those of the dispatch pass);
when the first argument is retained the visible queue gains one slot per
argument — retained `Data`/`Event` arguments in order, every other argument
as an `undefined` hole — and when the first argument is not retained the
queue gains nothing at all. -/
theorem push_visibleQueue_semantics (H : Nat → Bool) (m : Manager) (args : List Payload)
    (hok : (pushDispatch H m args).2 = false) :
    (push H m args).mgr.state = (pushDispatch H m args).1.state ∧
    (push H m args).mgr.log = (pushDispatch H m args).1.log ∧
    (push H m args).mgr.registry = (pushDispatch H m args).1.registry ∧
    (push H m args).mgr.queue =
      (if (args.head?.bind retainedOpt).isSome then m.queue ++ args.map retainedOpt
       else m.queue) := by
  unfold push
  cases args with
  | nil => simp [hok, pushDispatch_queue]
  | cons a0 rest =>
    cases hr : (retainedOpt a0).isSome <;>
      simp [hok, hr, pushDispatch_queue]

/-- Witness for `push_visibleQueue_semantics`. -/
theorem push_visibleQueue_semantics_witness :
    (pushDispatch noThrow emptyMgr [.dataP [("a", JValue.num 1)], .invalidP "bogus"]).2
        = false ∧
    (push noThrow emptyMgr [.dataP [("a", JValue.num 1)], .invalidP "bogus"]).mgr.queue
        = emptyMgr.queue ++
            [Payload.dataP [("a", JValue.num 1)], Payload.invalidP "bogus"].map
              retainedOpt :=
  ⟨rfl, by
    have h := (push_visibleQueue_semantics noThrow emptyMgr
      [.dataP [("a", JValue.num 1)], .invalidP "bogus"] rfl).2.2.2
    simpa using h⟩

/-!  ## C10  -/

/-- C10: `push` appends to the underlying array only when the first filtered
argument slot is still truthy: if the first positional argument was deleted
(classified `ListenerOn`, `ListenerOff`, `Function` or invalid), the call
returns `undefined` and appends nothing — even though every argument was
already dispatched — and only when the first argument survives does `push`
forward the hole-containing argument list to `Array.prototype.push` and
return the resulting length. -/
theorem push_first_argument_gate (H : Nat → Bool) (m : Manager) (a0 : Payload)
    (rest : List Payload) (hok : (pushDispatch H m (a0 :: rest)).2 = false) :
    (retainedOpt a0 = none →
        (push H m (a0 :: rest)).mgr.queue = m.queue ∧
        (push H m (a0 :: rest)).ret = none ∧
        (push H m (a0 :: rest)).mgr.state = (pushDispatch H m (a0 :: rest)).1.state ∧
        (push H m (a0 :: rest)).mgr.log = (pushDispatch H m (a0 :: rest)).1.log) ∧
    ((retainedOpt a0).isSome = true →
        (push H m (a0 :: rest)).mgr.queue = m.queue ++ (a0 :: rest).map retainedOpt ∧
        (push H m (a0 :: rest)).ret
          = some (m.queue.length + (a0 :: rest).length)) := by
  constructor
  · intro hnone
    unfold push
    simp [hok, hnone, pushDispatch_queue]
  · intro hsome
    unfold push
    simp [hok, hsome, pushDispatch_queue]

/-- Witness for `push_first_argument_gate`: the first argument is an invalid
payload, the second a valid `Data` item; the data is merged but nothing is
appended and `undefined` is returned. -/
theorem push_first_argument_gate_witness :
    (pushDispatch noThrow emptyMgr [.invalidP "x", .dataP [("a", JValue.num 1)]]).2
        = false ∧
    ((push noThrow emptyMgr [.invalidP "x", .dataP [("a", JValue.num 1)]]).mgr.queue
        = emptyMgr.queue ∧
      (push noThrow emptyMgr [.invalidP "x", .dataP [("a", JValue.num 1)]]).ret = none ∧
      (push noThrow emptyMgr [.invalidP "x", .dataP [("a", JValue.num 1)]]).mgr.state
        = (pushDispatch noThrow emptyMgr
            [.invalidP "x", .dataP [("a", JValue.num 1)]]).1.state ∧
      (push noThrow emptyMgr [.invalidP "x", .dataP [("a", JValue.num 1)]]).mgr.log
        = (pushDispatch noThrow emptyMgr
            [.invalidP "x", .dataP [("a", JValue.num 1)]]).1.log) :=
  ⟨rfl, (push_first_argument_gate noThrow emptyMgr (.invalidP "x")
      [.dataP [("a", JValue.num 1)]] rfl).1 rfl⟩

/-!  ## C5  -/

/-- The `_getBefore` guard is inactive for the index of an entry actually in
the queue: the replay window is the queue prefix before the index. -/
theorem getBefore_lt (queue : List Entry) (i : Nat) (hi : i < queue.length) :
    getBefore queue (some i) = queue.take i := by
  have hc : (queue.length == 0 || decide (i + 1 > queue.length)) = false := by
    simp only [Bool.or_eq_false_iff, beq_eq_false_iff_ne, decide_eq_false_iff_not]
    omega
  simp only [getBefore, hc, Bool.false_eq_true, if_false]

/-- Effects appended by a trigger pass invoke only registered listeners. -/
theorem mem_appendTrigger (g : Nat → Bool) (regs : List Listener) (p : Payload)
    (base : List Event) (x : Event) (hx : x ∈ base ++ triggerListeners g regs p) :
    x ∈ base ∨ ∀ l, invokedListener x = some l → l ∈ regs := by
  rcases List.mem_append.mp hx with h | h
  · exact Or.inl h
  · right
    intro l hl
    rcases mem_triggerListeners g regs p x h with ⟨l0, hl0, hinv⟩
    rw [hl] at hinv
    injection hinv with h2
    exact h2 ▸ hl0

/-- C5: a `ListenerOn` command with scope `past` processed at index `i`
replays exactly the commands classified from the visible queue entries with
index strictly less than `i`, in order, each matched and triggered against
the single new listener only, and registers nothing — the manager is
unchanged except for the replay effects — while, in general, processing a
`Data` or `Event` command invokes only listeners present in the registry, so
the unregistered past-scope listener never fires for commands processed
afterwards. -/
theorem pastListener_replay (H : Nat → Bool) (m : Manager) (name : String) (hd : Nat)
    (path : Option String) (i : Nat) (hi : i < m.queue.length) :
    processItemIdx H m (some (.onP name hd path (some "past"))) (some i)
      = ({ m with log := m.log ++
            ((m.queue.take i).map
              (fun e => triggerOneEvents H (mkListener name hd path (some "past"))
                (classifyEntry e))).flatten }, false) ∧
    (∀ (g : Nat → Bool) (m' : Manager) (p : Payload) (idx : Option Nat) (x : Event),
        (itemTypeOf p = ItemType.data ∨ itemTypeOf p = ItemType.event) →
        x ∈ (processItemIdx g m' (some p) idx).1.log →
        x ∈ m'.log ∨ ∀ l, invokedListener x = some l → l ∈ m'.registry) := by
  constructor
  · have hg := getBefore_lt m.queue i hi
    simp [processItemIdx, classifyEntry, mkListener, parseScope, hg]
  · intro g m' p idx x hty hx
    cases p with
    | dataP d => exact mem_appendTrigger g m'.registry (.dataP d) m'.log x hx
    | eventP n d info =>
      cases d with
      | none => exact mem_appendTrigger g m'.registry (.eventP n none info) m'.log x hx
      | some dd =>
        exact mem_appendTrigger g m'.registry (.eventP n (some dd) info) m'.log x hx
    | onP n hh pa sc => simp [itemTypeOf] at hty
    | offP n hh => simp [itemTypeOf] at hty
    | fctnP f thr => simp [itemTypeOf] at hty
    | invalidP raw => simp [itemTypeOf] at hty

/-- A concrete queue for the `pastListener_replay` witness: one `Event` entry
followed by a past-scope `ListenerOn` entry at index 1. -/
def mC5 : Manager :=
  ⟨[], [], [some (.eventP "e" none none), some (.onP "e" 42 none (some "past"))],
    [], []⟩

/-- Witness for `pastListener_replay`. -/
theorem pastListener_replay_witness :
    1 < mC5.queue.length ∧
    (processItemIdx noThrow mC5 (some (.onP "e" 42 none (some "past"))) (some 1)
        = ({ mC5 with log := mC5.log ++
              ((mC5.queue.take 1).map
                (fun e => triggerOneEvents noThrow (mkListener "e" 42 none (some "past"))
                  (classifyEntry e))).flatten }, false) ∧
      (∀ (g : Nat → Bool) (m' : Manager) (p : Payload) (idx : Option Nat) (x : Event),
          (itemTypeOf p = ItemType.data ∨ itemTypeOf p = ItemType.event) →
          x ∈ (processItemIdx g m' (some p) idx).1.log →
          x ∈ m'.log ∨ ∀ l, invokedListener x = some l → l ∈ m'.registry)) :=
  ⟨by decide, pastListener_replay noThrow mC5 "e" 42 none 1 (by decide)⟩

/-!  ## C6  -/

/-- C6 counterexample: pushing an invalid payload does not log any
diagnostic — the overridden `push` only deletes an invalid argument and its
`switch` has no case for it, so `_processItem` (which would log) is never
called: the whole call is a no-op returning `undefined`. -/
theorem pushedInvalid_noDiagnostic_cex :
    push noThrow emptyMgr [.invalidP "bogus"]
        = ⟨emptyMgr, none, false⟩ ∧
    (push noThrow emptyMgr [.invalidP "bogus"]).mgr.log = [] := ⟨rfl, rfl⟩

/-- C6 (amended): an invalid command never changes the state and never
triggers a listener; at construction `_processItems` routes it through
`_processItem`, which logs a diagnostic identifying the raw payload and
splices the entry out of the visible queue; but an invalid argument of `push`
is deleted without any diagnostic (it is never passed to `_processItem`) and
is never retained. -/
theorem invalid_handling (H : Nat → Bool) (m : Manager) (raw : String)
    (idx : Option Nat) (rest : List Payload) (q : List Entry) (e : Entry)
    (hq : (initManager H q).2 = false) (he : e ∈ (initManager H q).1.queue) :
    processItemIdx H m (some (.invalidP raw)) idx
        = ({ m with log := m.log ++ [.invalidDiag raw] }, false) ∧
    pushDispatch H m (.invalidP raw :: rest) = pushDispatch H m rest ∧
    retainedOpt (.invalidP raw) = none ∧
    retainedEntry e = true := by
  refine ⟨rfl, rfl, rfl, ?_⟩
  simp only [initManager] at hq he
  rw [processItemsGo_queue H q ⟨[], [], q, [], []⟩ [] hq] at he
  simpa using List.of_mem_filter he

/-- Witness for `invalid_handling`: construction over an invalid entry
followed by a data entry keeps exactly the data entry. -/
theorem invalid_handling_witness :
    (initManager noThrow [some (.invalidP "x"), some (.dataP [("a", JValue.num 1)])]).2
        = false ∧
    (some (Payload.dataP [("a", JValue.num 1)]) ∈
        (initManager noThrow
          [some (.invalidP "x"), some (.dataP [("a", JValue.num 1)])]).1.queue) ∧
    retainedEntry (some (Payload.dataP [("a", JValue.num 1)])) = true :=
  ⟨rfl, List.mem_singleton.mpr rfl,
    (invalid_handling noThrow emptyMgr "x" none []
      [some (.invalidP "x"), some (.dataP [("a", JValue.num 1)])]
      (some (.dataP [("a", JValue.num 1)]))
      rfl (List.mem_singleton.mpr rfl)).2.2.2⟩

/-!  ## C7  -/

/-- C7 counterexample: a `Function` command whose payload throws is invoked by
`typeProcessors.fctn` without any try/catch, so the exception propagates out
of `push`: the call throws, the following `Data` argument is never processed
(the state is still empty), nothing is appended, and the only observable
effect is the function invocation itself. -/
theorem fctnThrow_propagates_cex :
    (push noThrow emptyMgr [.fctnP 7 true, .dataP [("a", JValue.num 1)]]).threw
        = true ∧
    (push noThrow emptyMgr [.fctnP 7 true, .dataP [("a", JValue.num 1)]]).mgr.state
        = [] ∧
    (push noThrow emptyMgr [.fctnP 7 true, .dataP [("a", JValue.num 1)]]).mgr.queue
        = [] ∧
    (push noThrow emptyMgr [.fctnP 7 true, .dataP [("a", JValue.num 1)]]).mgr.log
        = [.fctnCall 7 []] := ⟨rfl, rfl, rfl, rfl⟩

/-- C7 (amended): an exception thrown by a listener handler is caught at the
trigger boundary (`triggerListener`, modelled from the spec) — it is logged
as a handler error and does not abort the remaining listeners of the same
dispatch — but an exception thrown by a `Function` command's payload is not
caught anywhere in `push`/`_processItem`: it propagates to the caller of
`push`, aborts the processing of the remaining arguments, and skips the final
queue append. -/
theorem handlerException_boundaries (H : Nat → Bool) (m : Manager)
    (regs1 regs2 : List Listener) (l : Listener) (p : Payload)
    (pre post : List Payload) (f : Nat)
    (hok : (pushDispatch H m pre).2 = false) :
    triggerListeners H (regs1 ++ l :: regs2) p
        = triggerListeners H regs1 p ++ triggerOneEvents H l p
            ++ triggerListeners H regs2 p ∧
    (matchesL l p = true → H l.handler = true →
        triggerOneEvents H l p = [.handlerError l p]) ∧
    push H m (pre ++ .fctnP f true :: post)
        = ⟨{ (pushDispatch H m pre).1 with
              log := (pushDispatch H m pre).1.log ++ [.fctnCall f m.queue] },
            none, true⟩ ∧
    (push H m (pre ++ .fctnP f true :: post)).mgr.queue = m.queue := by
  have h1 : pushDispatch H m (pre ++ .fctnP f true :: post)
      = ({ (pushDispatch H m pre).1 with
            log := (pushDispatch H m pre).1.log
              ++ [Event.fctnCall f (pushDispatch H m pre).1.queue] }, true) := by
    rw [pushDispatch_append H pre (.fctnP f true :: post) m hok]
    rfl
  have h2 : push H m (pre ++ .fctnP f true :: post)
      = ⟨{ (pushDispatch H m pre).1 with
            log := (pushDispatch H m pre).1.log ++ [Event.fctnCall f m.queue] },
          none, true⟩ := by
    simp [push, h1, pushDispatch_queue]
  refine ⟨?_, ?_, h2, ?_⟩
  · simp [triggerListeners, List.append_assoc]
  · intro hm hthrow
    simp [triggerOneEvents, hm, hthrow]
  · rw [h2]
    exact pushDispatch_queue H pre m

/-- Witness for `handlerException_boundaries`. -/
theorem handlerException_boundaries_witness :
    (pushDispatch noThrow emptyMgr []).2 = false ∧
    (triggerListeners noThrow ([] ++ (⟨"e", none, Scope.all, 0⟩ : Listener) :: [])
          (.eventP "e" none none)
        = triggerListeners noThrow [] (.eventP "e" none none)
            ++ triggerOneEvents noThrow ⟨"e", none, Scope.all, 0⟩ (.eventP "e" none none)
            ++ triggerListeners noThrow [] (.eventP "e" none none) ∧
      (matchesL ⟨"e", none, Scope.all, 0⟩ (.eventP "e" none none) = true →
          noThrow (⟨"e", none, Scope.all, 0⟩ : Listener).handler = true →
          triggerOneEvents noThrow ⟨"e", none, Scope.all, 0⟩ (.eventP "e" none none)
            = [.handlerError ⟨"e", none, Scope.all, 0⟩ (.eventP "e" none none)]) ∧
      push noThrow emptyMgr ([] ++ .fctnP 7 true :: [])
          = ⟨{ (pushDispatch noThrow emptyMgr []).1 with
                log := (pushDispatch noThrow emptyMgr []).1.log
                  ++ [.fctnCall 7 emptyMgr.queue] }, none, true⟩ ∧
      (push noThrow emptyMgr ([] ++ .fctnP 7 true :: [])).mgr.queue
        = emptyMgr.queue) :=
  ⟨rfl, handlerException_boundaries noThrow emptyMgr [] []
    ⟨"e", none, Scope.all, 0⟩ (.eventP "e" none none) [] [] 7 rfl⟩

/-!  ## C8  -/

/-- C8: a `Function` command is processed by invoking its payload exactly
once, synchronously, with the visible queue as receiver and argument, leaving
state, previous snapshot, registry and queue untouched and triggering no
listener; within a `push` call the invocation happens at the command's
position in the argument order, before the call returns; and the function is
never retained into the visible queue (its filtered slot is a hole, and only
`Data`/`Event` items are ever retained). -/
theorem fctn_invocation (H : Nat → Bool) (m mAny : Manager) (idx : Option Nat)
    (pre post : List Payload) (f : Nat)
    (hok : (pushDispatch H m pre).2 = false) :
    processItemIdx H mAny (some (.fctnP f false)) idx
        = ({ mAny with log := mAny.log ++ [.fctnCall f mAny.queue] }, false) ∧
    pushDispatch H m (pre ++ .fctnP f false :: post)
        = pushDispatch H
            ({ (pushDispatch H m pre).1 with
                log := (pushDispatch H m pre).1.log ++ [.fctnCall f m.queue] }) post ∧
    (∀ (p : Payload), (retainedOpt p).isSome = true →
        itemTypeOf p = ItemType.data ∨ itemTypeOf p = ItemType.event) ∧
    retainedOpt (.fctnP f false) = none := by
  refine ⟨rfl, ?_, ?_, rfl⟩
  · rw [pushDispatch_append H pre (.fctnP f false :: post) m hok,
      ← pushDispatch_queue H pre m]
    rfl
  · intro p hp
    cases p <;> simp [retainedOpt, itemTypeOf] at hp ⊢

/-- Witness for `fctn_invocation`. -/
theorem fctn_invocation_witness :
    (pushDispatch noThrow emptyMgr []).2 = false ∧
    (processItemIdx noThrow emptyMgr (some (.fctnP 3 false)) none
        = ({ emptyMgr with log := emptyMgr.log ++ [.fctnCall 3 emptyMgr.queue] },
            false) ∧
      pushDispatch noThrow emptyMgr ([] ++ .fctnP 3 false :: [])
        = pushDispatch noThrow
            ({ (pushDispatch noThrow emptyMgr []).1 with
                log := (pushDispatch noThrow emptyMgr []).1.log
                  ++ [.fctnCall 3 emptyMgr.queue] }) [] ∧
      (∀ (p : Payload), (retainedOpt p).isSome = true →
          itemTypeOf p = ItemType.data ∨ itemTypeOf p = ItemType.event) ∧
      retainedOpt (.fctnP 3 false) = none) :=
  ⟨rfl, fctn_invocation noThrow emptyMgr emptyMgr none [] [] 3 rfl⟩

/-!  ## C9  -/

/-- No single processing step emits a readiness notification: every effect it
appends is a diagnostic, a function invocation, or a listener invocation. -/
theorem processItemIdx_no_ready (H : Nat → Bool) (m : Manager) (e : Entry)
    (idx : Option Nat) (x : Event)
    (hx : x ∈ (processItemIdx H m e idx).1.log) : x ∈ m.log ∨ x.isReady = false := by
  rcases e with _ | p
  · rcases List.mem_append.mp hx with h | h
    · exact Or.inl h
    · rw [List.mem_singleton.mp h]
      exact Or.inr rfl
  · cases p with
    | dataP d =>
      rcases List.mem_append.mp hx with h | h
      · exact Or.inl h
      · right
        rcases List.mem_flatten.mp h with ⟨L, hL, hxL⟩
        rcases List.mem_map.mp hL with ⟨l0, _, rfl⟩
        exact (mem_triggerOneEvents H l0 _ x hxL).2
    | eventP n d info =>
      rcases d with _ | dd <;>
        · rcases List.mem_append.mp hx with h | h
          · exact Or.inl h
          · right
            rcases List.mem_flatten.mp h with ⟨L, hL, hxL⟩
            rcases List.mem_map.mp hL with ⟨l0, _, rfl⟩
            exact (mem_triggerOneEvents H l0 _ x hxL).2
    | fctnP f thr =>
      rcases List.mem_append.mp hx with h | h
      · exact Or.inl h
      · rw [List.mem_singleton.mp h]
        exact Or.inr rfl
    | offP n hh => exact Or.inl hx
    | onP n hh pa sc =>
      simp only [processItemIdx, classifyEntry] at hx
      cases hsc : (mkListener n hh pa sc).scope <;> simp only [hsc] at hx
      · rcases List.mem_append.mp hx with h | h
        · exact Or.inl h
        · exact Or.inr (mem_replayEvents H _ _ x h).2
      · exact Or.inl hx
      · split at hx
        · rcases List.mem_append.mp hx with h | h
          · exact Or.inl h
          · exact Or.inr (mem_replayEvents H _ _ x h).2
        · exact Or.inl hx
    | invalidP raw =>
      rcases List.mem_append.mp hx with h | h
      · exact Or.inl h
      · rw [List.mem_singleton.mp h]
        exact Or.inr rfl

/-- No effect emitted during the `_processItems` construction scan is a
readiness notification. -/
theorem processItemsGo_no_ready (H : Nat → Bool) (rest : List Entry) (m : Manager)
    (kept : List Entry) (x : Event)
    (hx : x ∈ (processItemsGo H m kept rest).1.log) :
    x ∈ m.log ∨ x.isReady = false := by
  induction rest generalizing m kept with
  | nil => exact Or.inl hx
  | cons e rest ih =>
    simp only [processItemsGo] at hx
    cases hthr : (processItemIdx H { m with queue := kept ++ e :: rest } e
        (some kept.length)).2 with
    | true =>
      simp only [hthr, if_true] at hx
      have h2 := processItemIdx_no_ready H { m with queue := kept ++ e :: rest } e
        (some kept.length) x hx
      exact h2
    | false =>
      simp only [hthr, Bool.false_eq_true, if_false] at hx
      cases hre : retainedEntry e with
      | true =>
        simp only [hre, if_true] at hx
        rcases ih _ _ hx with h | h
        · have h2 := processItemIdx_no_ready H { m with queue := kept ++ e :: rest } e
            (some kept.length) x h
          exact h2
        · exact Or.inr h
      | false =>
        simp only [hre, Bool.false_eq_true, if_false] at hx
        rcases ih _ _ hx with h | h
        · have h2 := processItemIdx_no_ready H { m with queue := kept ++ e :: rest } e
            (some kept.length) x h
          exact h2
        · exact Or.inr h

/-- C9: no readiness notification is ever fired: for every initial queue, the
effects of `DataLayer.Manager` construction (`_initialize` followed by the
`_processItems` scan) contain no readiness event — contradicting both the
claim and the source's own `DataLayerEvent.READY` documentation. -/
theorem construction_no_ready (H : Nat → Bool) (q : List Entry) :
    (initManager H q).1.log.all (fun x => !(x.isReady)) = true := by
  rw [List.all_eq_true]
  intro x hx
  rcases processItemsGo_no_ready H q ⟨[], [], q, [], []⟩ [] x
      (by simpa [initManager] using hx) with h | h
  · exact absurd h (List.not_mem_nil x)
  · simp [h]
